import Mathlib

/-!
Verification of the Drug Interaction Checker's Interaction Resolution Engine
against its specification.

The repository ships the static frontend (frontend/app.js), a fetch-based API
client, and documentation; the backend engine (backend/app/interaction_checker.py
and friends, per README.md) is not part of the checked-in sources.  Definitions
for the engine components are therefore modelled from the specification text
(each such definition says so in its doc comment); the frontend logic is
embedded directly from frontend/app.js.
-/

namespace DrugChecker

/-- Severity enum of an InteractionRecord, per spec section 3:
minor, moderate, major, contraindicated. -/
inductive Sev : Type where
  | minor : Sev
  | moderate : Sev
  | major : Sev
  | contraindicated : Sev
deriving DecidableEq

/-- Numeric rank realizing the fixed severity ordering
contraindicated > major > moderate > minor (spec section 3). -/
def sevRank : Sev → Nat
  | Sev.minor => 1
  | Sev.moderate => 2
  | Sev.major => 3
  | Sev.contraindicated => 4

/-- Canonical display name of a severity level. -/
def sevName : Sev → String
  | Sev.minor => "minor"
  | Sev.moderate => "moderate"
  | Sev.major => "major"
  | Sev.contraindicated => "contraindicated"

/-- Modelled from the spec: Drug reference data (spec section 3) as held by the
missing backend KnowledgeStore; only the fields the claims exercise are kept
(canonical lowercase name and pharmacological class). -/
structure Drug : Type where
  name : String
  dclass : String
deriving DecidableEq

/-- Modelled from the spec: InteractionRecord (spec section 3): unordered pair
of drug identifiers plus severity; the narrative fields (description,
mechanism, ...) do not affect any claim and are omitted. -/
structure InteractionRecord : Type where
  drug1 : String
  drug2 : String
  severity : Sev
deriving DecidableEq

/-- Modelled from the spec: the read-only KnowledgeStore (spec section 4.1),
a drug table plus an interaction table, loaded once and never mutated. -/
structure KnowledgeStore : Type where
  drugs : List Drug
  inters : List InteractionRecord
deriving DecidableEq

/-- Lexicographic strict comparison of character lists by code point, the
computable order used for canonicalizing identifier pairs and sorting
results. -/
def ltChars : List Char → List Char → Bool
  | _, [] => false
  | [], _ :: _ => true
  | a :: as, b :: bs =>
    if a.toNat < b.toNat then true
    else if b.toNat < a.toNat then false
    else ltChars as bs

/-- Strict lexicographic order on strings. -/
def strLt (a b : String) : Bool :=
  ltChars a.data b.data

/-- Lexicographic order on strings. -/
def strLe (a b : String) : Bool :=
  !(strLt b a)

/-- Modelled from the spec: canonical key of an unordered identifier pair:
the two identifiers are sorted before indexing (spec section 4.1). -/
def keyOf (a b : String) : String × String :=
  if strLt b a then (b, a) else (a, b)

/-- Modelled from the spec: getDrug lookup of the KnowledgeStore
(spec section 4.1), first record with the given canonical name. -/
def getDrug (ks : KnowledgeStore) (id : String) : Option Drug :=
  ks.drugs.find? (fun d => d.name == id)

/-- Modelled from the spec: getInteraction pair lookup of the KnowledgeStore
(spec section 4.1): order-independent via the sorted pair key; None when the
pair has no record. -/
def getInteraction (ks : KnowledgeStore) (a b : String) : Option InteractionRecord :=
  ks.inters.find? (fun r => decide (keyOf r.drug1 r.drug2 = keyOf a b))

/-- Modelled from the spec: getPairSeverity interface operation
(spec section 6), returning the InteractionRecord or nothing
("no interaction found"). -/
def getPairSeverity (ks : KnowledgeStore) (a b : String) : Option InteractionRecord :=
  getInteraction ks a b

/-- Whitespace test used by the embedding of the JavaScript trim operation
(frontend/app.js uses String.prototype.trim): the common whitespace
characters. -/
def isWsChar (c : Char) : Bool :=
  c == ' ' || c == '\t' || c == '\n' || c == '\r' || c == '\x0b' || c == '\x0c'

/-- ASCII lowercasing of one character, the embedding of JavaScript
toLowerCase restricted to the ASCII range drug names use. -/
def lowerChar (c : Char) : Char :=
  if 65 ≤ c.toNat ∧ c.toNat ≤ 90 then Char.ofNat (c.toNat + 32) else c

/-- Embedding of JavaScript toLowerCase on a string. -/
def lowerStr (s : String) : String :=
  String.mk (s.data.map lowerChar)

/-- Character-list form of JavaScript trim: drop whitespace from the front,
then from the back. -/
def trimChars (l : List Char) : List Char :=
  (l.dropWhile isWsChar).rdropWhile isWsChar

/-- Embedding of JavaScript String.prototype.trim. -/
def jsTrim (s : String) : String :=
  String.mk (trimChars s.data)

/-- Normalization applied by addDrug in frontend/app.js line 102:
drugSearch.value.trim().toLowerCase(). -/
def normName (s : String) : String :=
  lowerStr (jsTrim s)

/-- addDrug from frontend/app.js lines 101-120: normalize the search box
value; reject empty input and duplicates (alert, list unchanged); otherwise
push the normalized name onto selectedDrugs. -/
def addDrug (input : String) (sel : List String) : List String :=
  let drugName := normName input
  if drugName = "" then sel
  else if drugName ∈ sel then sel
  else sel ++ [drugName]

/-- removeDrug from frontend/app.js lines 142-146:
selectedDrugs = selectedDrugs.filter(d => d !== drugName). -/
def removeDrug (drugName : String) (sel : List String) : List String :=
  sel.filter (fun d => d != drugName)

/-- clearAll from frontend/app.js lines 455-465: selectedDrugs = []. -/
def clearAll : List String :=
  []

/-- A string is in normal form when lowercasing and trimming leave it
unchanged. -/
@[reducible]
def IsNormalized (x : String) : Prop :=
  lowerStr x = x ∧ jsTrim x = x

/-- Invariant of the frontend selection list: entries are pairwise distinct
and each is lowercase and trimmed. -/
@[reducible]
def SelectionInv (sel : List String) : Prop :=
  sel.Nodup ∧ ∀ x ∈ sel, IsNormalized x

/-- Character-list test that the first list starts the second, the base of
the substring test below. -/
def leadsWith : List Char → List Char → Bool
  | [], _ => true
  | _ :: _, [] => false
  | a :: as, b :: bs => a == b && leadsWith as bs

/-- Character-list substring test, the embedding of JavaScript
String.prototype.includes. -/
def containsSub (pat : List Char) : List Char → Bool
  | [] => pat.isEmpty
  | b :: bs => leadsWith pat (b :: bs) || containsSub pat bs

/-- String-level substring test: strIncludes s pat embeds s.includes(pat). -/
def strIncludes (s pat : String) : Bool :=
  containsSub pat.data s.data

/-- Icon selection of displayRecommendations in frontend/app.js lines
287-294: an if/else-if chain over emoji markers contained in the
recommendation string, defaulting to the info icon. -/
def recIcon (rec : String) : String :=
  if strIncludes rec "❌" then "fa-ban"
  else if strIncludes rec "⚠️" then "fa-exclamation-triangle"
  else if strIncludes rec "⚡" then "fa-bolt"
  else if strIncludes rec "💡" then "fa-lightbulb"
  else if strIncludes rec "✅" then "fa-check-circle"
  else if strIncludes rec "👴" then "fa-user"
  else "fa-info-circle"

/-- Per-item rendering of displayRecommendations in frontend/app.js lines
283-302: the chosen icon class together with the recommendation text, which
the template interpolates unmodified. -/
def renderRecommendation (rec : String) : String × String :=
  (recIcon rec, rec)

/-- Marker-to-icon priority list, in the order the source consults
the markers. -/
def iconPriority : List (String × String) :=
  [("❌", "fa-ban"), ("⚠️", "fa-exclamation-triangle"), ("⚡", "fa-bolt"),
    ("💡", "fa-lightbulb"), ("✅", "fa-check-circle"), ("👴", "fa-user")]

/-- Icon the claim describes: the icon of the first marker of the priority
list occurring in the string, the info icon when none occurs. -/
def firstMatchIcon (rec : String) : String :=
  match iconPriority.find? (fun mi => strIncludes rec mi.1) with
  | some mi => mi.2
  | none => "fa-info-circle"

/-- Modelled from the spec: PairGenerator (spec section 4.2): every unordered
pair of input identifiers, first component first-seen earlier, enumerated in
the order given by (first-seen index of first, first-seen index of second). -/
def pairs {α : Type} : List α → List (α × α)
  | [] => []
  | x :: xs => (xs.map (fun y => (x, y))) ++ pairs xs

/-- Lexicographic precedence of generated pairs by first-seen index of each
component, the order the spec section 4.2 requires. -/
def idxLex {α : Type} [DecidableEq α] (l : List α) (p q : α × α) : Prop :=
  l.indexOf p.1 < l.indexOf q.1 ∨ (p.1 = q.1 ∧ l.indexOf p.2 < l.indexOf q.2)

/-- Modelled from the spec: the larger of two severities under the fixed
ordering contraindicated > major > moderate > minor (spec section 4.4). -/
def maxSev (a b : Sev) : Sev :=
  if sevRank a < sevRank b then b else a

/-- Modelled from the spec: RiskAggregator overall risk (spec section 4.4):
the maximum severity among the matched InteractionRecords; the explicit named
level "none" when no interactions matched. -/
def overallRisk : List InteractionRecord → String
  | [] => "none"
  | r :: rs => sevName (rs.foldl (fun m x => maxSev m x.severity) r.severity)

/-- Modelled from the spec: InteractionResolver output (spec section 4.3):
the ordered list of matched InteractionRecords plus the set of unknown
identifiers. -/
structure ResolveOutput : Type where
  matched : List InteractionRecord
  unknowns : List String
deriving DecidableEq

/-- Modelled from the spec: InteractionResolver (spec section 4.3): for every
generated pair query getInteraction, keeping the matches in pair order;
identifiers with no Drug record are collected once each as unknown and do not
abort resolution of the remaining pairs. -/
def resolve (ks : KnowledgeStore) (ids : List String) : ResolveOutput :=
  { matched := (pairs ids).filterMap (fun p => getInteraction ks p.1 p.2)
    unknowns := (ids.filter (fun d => (getDrug ks d).isNone)).dedup }

/-- Modelled from the spec: PatientFactors input (spec section 3). -/
structure PatientFactors : Type where
  age : Option Nat
  conditions : List String
  allergies : List String
deriving DecidableEq

/-- Modelled from the spec: AnalysisResult (spec section 3), the fields the
claims exercise. -/
structure AnalysisResult : Type where
  drugCount : Nat
  drugs : List String
  interactions : List InteractionRecord
  unknowns : List String
  overall : String
deriving DecidableEq

/-- Modelled from the spec: engine error kinds (spec section 7):
InvalidInput with the reason, NotFound with the offending identifier. -/
inductive EngineError : Type where
  | invalidInput (reason : String) : EngineError
  | notFound (id : String) : EngineError
deriving DecidableEq

/-- Reason message for an analyze request with fewer than 2 drugs. -/
def minDrugsMsg : String :=
  "at least 2 drugs are required"

/-- Modelled from the spec: the analyze interface operation (spec section 6):
fails with InvalidInput when the drug list has fewer than 2 entries after
normalization and deduplication, otherwise resolves all pairs and aggregates
the overall risk. -/
def analyze (ks : KnowledgeStore) (drugsIn : List String)
    (_pf : Option PatientFactors) : Except EngineError AnalysisResult :=
  let norm := (drugsIn.map normName).dedup
  if norm.length < 2 then
    Except.error (EngineError.invalidInput minDrugsMsg)
  else
    let res := resolve ks norm
    Except.ok
      { drugCount := norm.length
        drugs := norm
        interactions := res.matched
        unknowns := res.unknowns
        overall := overallRisk res.matched }

/-- Insertion of one element into a list sorted by the Boolean comparison. -/
def insertBy {α : Type} (le : α → α → Bool) (x : α) : List α → List α
  | [] => [x]
  | y :: ys => if le x y then x :: y :: ys else y :: insertBy le x ys

/-- Insertion sort by a Boolean comparison. -/
def isort {α : Type} (le : α → α → Bool) : List α → List α
  | [] => []
  | x :: xs => insertBy le x (isort le xs)

/-- Modelled from the spec: interaction_count of a drug against a context set
(spec section 4.5): the number of context drugs whose pair with the drug has
an interaction record. -/
def interactionCount (ks : KnowledgeStore) (d : String) (ctx : List String) : Nat :=
  (ctx.filter (fun c => (getInteraction ks d c).isSome)).length

/-- Ranking of alternative candidates (spec section 4.5): ascending by
interaction count, ties by ascending canonical name. -/
def altLe (ks : KnowledgeStore) (ctx : List String) (a b : String) : Bool :=
  interactionCount ks a ctx < interactionCount ks b ctx
    || (interactionCount ks a ctx == interactionCount ks b ctx && strLe a b)

/-- Modelled from the spec: AlternativeRecommender (spec section 4.5):
candidates are the same-class drugs other than the target; only candidates
with strictly fewer interactions against the context than the target itself
are kept, ranked ascending by interaction count then name. -/
def alternativesFor (ks : KnowledgeStore) (d : String) (ctx : List String) :
    List String :=
  match getDrug ks d with
  | none => []
  | some drug =>
    let cands := (ks.drugs.filter
      (fun x => x.dclass == drug.dclass && x.name != d)).map (fun x => x.name)
    let own := interactionCount ks d ctx
    let safer := cands.filter (fun c => interactionCount ks c ctx < own)
    isort (altLe ks ctx) safer

/-- Case-insensitive substring match of the query against a drug's canonical
name (spec section 4.1). -/
def matchesQuery (q : String) (d : Drug) : Bool :=
  strIncludes (lowerStr d.name) (lowerStr q)

/-- Name comparison of drugs, the tie-break order of search results. -/
def drugLe (a b : Drug) : Bool :=
  strLe a.name b.name

/-- Hard maximum on search results (spec section 4.1). -/
def hardMaxResults : Nat :=
  50

/-- Default search limit, the API client default
(src/unnamed/part_000 line 37). -/
def defaultSearchLimit : Nat :=
  10

/-- Modelled from the spec: searchByPrefix of the KnowledgeStore
(spec section 4.1): case-insensitive substring/prefix match on canonical
name, ties broken by name ascending, capped at the limit and at the hard
maximum of 50. -/
def storeSearch (ks : KnowledgeStore) (q : String) (lim : Nat) : List Drug :=
  (isort drugLe (ks.drugs.filter (matchesQuery q))).take (min lim hardMaxResults)

/-- Reason message for a search query shorter than 2 characters. -/
def queryTooShortMsg : String :=
  "query must be at least 2 characters"

/-- Modelled from the spec: the searchDrugs interface operation
(spec section 6): fails with InvalidInput when the query has fewer than 2
characters, otherwise searches the store. -/
def searchDrugs (ks : KnowledgeStore) (q : String) (lim : Nat) :
    Except EngineError (List Drug) :=
  if q.length < 2 then
    Except.error (EngineError.invalidInput queryTooShortMsg)
  else
    Except.ok (storeSearch ks q lim)

/-- Concrete demonstration KnowledgeStore used by the concrete-input
witnesses: four drugs and two interaction records. -/
def ksDemo : KnowledgeStore :=
  { drugs :=
      [⟨"warfarin", "anticoagulant"⟩, ⟨"aspirin", "nsaid"⟩,
        ⟨"ibuprofen", "nsaid"⟩, ⟨"acetaminophen", "nsaid"⟩]
    inters :=
      [⟨"warfarin", "aspirin", Sev.major⟩,
        ⟨"warfarin", "ibuprofen", Sev.moderate⟩] }

theorem charLt_iff {a b : Char} : a < b ↔ a.toNat < b.toNat := by
  rw [Char.lt_def, UInt32.lt_def]
  exact Iff.rfl

theorem char_eq_iff_toNat {c d : Char} : c = d ↔ c.toNat = d.toNat :=
  Char.ext_iff.trans UInt32.ext_iff

theorem ltChars_iff : ∀ u v : List Char, ltChars u v = true ↔ u < v := by
  intro u
  induction u with
  | nil =>
    intro v
    cases v with
    | nil =>
      refine iff_of_false (by simp [ltChars]) ?_
      intro h
      cases h
    | cons b bs => exact iff_of_true rfl List.Lex.nil
  | cons a as ih =>
    intro v
    cases v with
    | nil =>
      refine iff_of_false (by simp [ltChars]) ?_
      intro h
      cases h
    | cons b bs =>
      simp only [ltChars]
      by_cases h1 : a.toNat < b.toNat
      · rw [if_pos h1]
        exact iff_of_true rfl (List.Lex.rel (charLt_iff.mpr h1))
      · rw [if_neg h1]
        by_cases h2 : b.toNat < a.toNat
        · rw [if_pos h2]
          refine iff_of_false (by simp) ?_
          intro h
          cases h with
          | cons htl =>
            exact Nat.lt_irrefl _ h2
          | rel hr => exact h1 (charLt_iff.mp hr)
        · rw [if_neg h2]
          have hab : a = b := char_eq_iff_toNat.mpr (by omega)
          subst hab
          constructor
          · intro h
            exact List.Lex.cons ((ih bs).mp h)
          · intro h
            cases h with
            | cons htl => exact (ih bs).mpr htl
            | rel hr => exact absurd (charLt_iff.mp hr) h1

theorem strLt_iff {a b : String} : strLt a b = true ↔ a < b := by
  rw [String.lt_iff_toList_lt]
  exact ltChars_iff a.data b.data

theorem strLe_iff {a b : String} : strLe a b = true ↔ a ≤ b := by
  unfold strLe
  constructor
  · intro h
    refine le_of_not_lt ?_
    intro hlt
    rw [← strLt_iff] at hlt
    rw [hlt] at h
    simp at h
  · intro h
    cases hb : strLt b a with
    | false => rfl
    | true => exact absurd (strLt_iff.mp hb) (not_lt_of_le h)

theorem keyOf_comm (a b : String) : keyOf a b = keyOf b a := by
  unfold keyOf
  cases h1 : strLt b a with
  | true =>
    cases h2 : strLt a b with
    | true =>
      exact absurd (strLt_iff.mp h2) (lt_asymm (strLt_iff.mp h1))
    | false => rfl
  | false =>
    cases h2 : strLt a b with
    | true => rfl
    | false =>
      have hnba : ¬ b < a := fun hlt =>
        Bool.noConfusion ((strLt_iff.mpr hlt).symm.trans h1)
      have hnab : ¬ a < b := fun hlt =>
        Bool.noConfusion ((strLt_iff.mpr hlt).symm.trans h2)
      have hab : a = b :=
        le_antisymm (le_of_not_lt hnba) (le_of_not_lt hnab)
      rw [hab]

theorem getInteraction_comm (ks : KnowledgeStore) (a b : String) :
    getInteraction ks a b = getInteraction ks b a := by
  unfold getInteraction
  rw [keyOf_comm a b]

theorem pairs_length_sq {α : Type} (l : List α) :
    2 * (pairs l).length + l.length = l.length * l.length := by
  induction l with
  | nil => rfl
  | cons x xs ih =>
    simp only [pairs, List.length_append, List.length_map, List.length_cons]
    have hrw : (xs.length + 1) * (xs.length + 1)
        = xs.length * xs.length + 2 * xs.length + 1 := by ring
    rw [hrw, ← ih]
    omega

theorem pairs_length_mul {α : Type} (l : List α) :
    2 * (pairs l).length = l.length * (l.length - 1) := by
  have hsq := pairs_length_sq l
  cases hn : l.length with
  | zero =>
    rw [hn] at hsq
    omega
  | succ m =>
    rw [hn] at hsq
    have hrw : (m + 1) * (m + 1) = (m + 1) * m + (m + 1) := by ring
    rw [hrw] at hsq
    have hsub : (m + 1) - 1 = m := rfl
    rw [hsub]
    omega

theorem mem_of_mem_pairs {α : Type} {l : List α} {a b : α}
    (h : (a, b) ∈ pairs l) : a ∈ l ∧ b ∈ l := by
  induction l with
  | nil => simp [pairs] at h
  | cons x xs ih =>
    simp only [pairs, List.mem_append, List.mem_map] at h
    rcases h with ⟨y, hy, heq⟩ | h2
    · obtain ⟨rfl, rfl⟩ := Prod.mk.injEq .. ▸ heq
      exact ⟨List.mem_cons_self x xs, List.mem_cons_of_mem x hy⟩
    · obtain ⟨ha, hb⟩ := ih h2
      exact ⟨List.mem_cons_of_mem x ha, List.mem_cons_of_mem x hb⟩

theorem nodup_pairwise_indexOf {α : Type} [DecidableEq α] {l : List α}
    (h : l.Nodup) :
    List.Pairwise (fun a b => l.indexOf a < l.indexOf b) l := by
  induction l with
  | nil => exact List.Pairwise.nil
  | cons x xs ih =>
    obtain ⟨hx, hxs⟩ := List.nodup_cons.mp h
    refine List.Pairwise.cons ?_ ?_
    · intro b hb
      have hbx : b ≠ x := fun heq => hx (heq ▸ hb)
      rw [List.indexOf_cons_self, List.indexOf_cons_ne _ (Ne.symm hbx)]
      exact Nat.succ_pos _
    · refine List.Pairwise.imp_of_mem ?_ (ih hxs)
      intro a b ha hb hab
      have hax : a ≠ x := fun heq => hx (heq ▸ ha)
      have hbx : b ≠ x := fun heq => hx (heq ▸ hb)
      rw [List.indexOf_cons_ne _ (Ne.symm hax), List.indexOf_cons_ne _ (Ne.symm hbx)]
      exact Nat.succ_lt_succ hab

theorem mem_pairs {α : Type} [DecidableEq α] {l : List α} (h : l.Nodup)
    (a b : α) :
    (a, b) ∈ pairs l ↔ a ∈ l ∧ b ∈ l ∧ l.indexOf a < l.indexOf b := by
  induction l with
  | nil => simp [pairs]
  | cons x xs ih =>
    obtain ⟨hx, hxs⟩ := List.nodup_cons.mp h
    constructor
    · intro hm
      simp only [pairs, List.mem_append, List.mem_map] at hm
      rcases hm with ⟨y, hy, heq⟩ | h2
      · obtain ⟨rfl, rfl⟩ := Prod.mk.injEq .. ▸ heq
        have hyx : y ≠ x := fun hq => hx (hq ▸ hy)
        refine ⟨List.mem_cons_self x xs, List.mem_cons_of_mem x hy, ?_⟩
        rw [List.indexOf_cons_self, List.indexOf_cons_ne _ (Ne.symm hyx)]
        exact Nat.succ_pos _
      · obtain ⟨ha, hb, hlt⟩ := (ih hxs).mp h2
        have hax : a ≠ x := fun hq => hx (hq ▸ ha)
        have hbx : b ≠ x := fun hq => hx (hq ▸ hb)
        refine ⟨List.mem_cons_of_mem x ha, List.mem_cons_of_mem x hb, ?_⟩
        rw [List.indexOf_cons_ne _ (Ne.symm hax), List.indexOf_cons_ne _ (Ne.symm hbx)]
        exact Nat.succ_lt_succ hlt
    · rintro ⟨ha, hb, hlt⟩
      simp only [pairs, List.mem_append, List.mem_map]
      rcases List.mem_cons.mp ha with rfl | hain
      · rw [List.indexOf_cons_self] at hlt
        have hbx : b ≠ a := by
          intro hq
          rw [hq, List.indexOf_cons_self] at hlt
          exact Nat.lt_irrefl 0 hlt
        have hbin : b ∈ xs := by
          rcases List.mem_cons.mp hb with rfl | hbin
          · exact absurd rfl hbx
          · exact hbin
        exact Or.inl ⟨b, hbin, rfl⟩
      · have hax : a ≠ x := fun hq => hx (hq ▸ hain)
        rw [List.indexOf_cons_ne _ (Ne.symm hax)] at hlt
        have hbx : b ≠ x := by
          intro hq
          rw [hq, List.indexOf_cons_self] at hlt
          exact Nat.not_lt_zero _ hlt
        have hbin : b ∈ xs := by
          rcases List.mem_cons.mp hb with rfl | hbin
          · exact absurd rfl hbx
          · exact hbin
        rw [List.indexOf_cons_ne _ (Ne.symm hbx)] at hlt
        exact Or.inr ((ih hxs).mpr ⟨hain, hbin, Nat.lt_of_succ_lt_succ hlt⟩)

theorem pairs_sorted {α : Type} [DecidableEq α] {l : List α} (h : l.Nodup) :
    List.Pairwise (idxLex l) (pairs l) := by
  induction l with
  | nil => exact List.Pairwise.nil
  | cons x xs ih =>
    obtain ⟨hx, hxs⟩ := List.nodup_cons.mp h
    simp only [pairs]
    rw [List.pairwise_append]
    refine ⟨?_, ?_, ?_⟩
    · rw [List.pairwise_map]
      refine List.Pairwise.imp_of_mem ?_ (nodup_pairwise_indexOf hxs)
      intro a b ha hb hab
      have hax : a ≠ x := fun hq => hx (hq ▸ ha)
      have hbx : b ≠ x := fun hq => hx (hq ▸ hb)
      refine Or.inr ⟨rfl, ?_⟩
      simp only
      rw [List.indexOf_cons_ne _ (Ne.symm hax), List.indexOf_cons_ne _ (Ne.symm hbx)]
      exact Nat.succ_lt_succ hab
    · refine List.Pairwise.imp_of_mem ?_ (ih hxs)
      intro p q hp hq hpq
      obtain ⟨hp1, hp2⟩ := mem_of_mem_pairs hp
      obtain ⟨hq1, hq2⟩ := mem_of_mem_pairs hq
      have hp1x : p.1 ≠ x := fun hq2x => hx (hq2x ▸ hp1)
      have hq1x : q.1 ≠ x := fun hq2x => hx (hq2x ▸ hq1)
      have hp2x : p.2 ≠ x := fun hq2x => hx (hq2x ▸ hp2)
      have hq2x : q.2 ≠ x := fun hq2y => hx (hq2y ▸ hq2)
      rcases hpq with hlt | ⟨heq, hlt⟩
      · refine Or.inl ?_
        rw [List.indexOf_cons_ne _ (Ne.symm hp1x), List.indexOf_cons_ne _ (Ne.symm hq1x)]
        exact Nat.succ_lt_succ hlt
      · refine Or.inr ⟨heq, ?_⟩
        rw [List.indexOf_cons_ne _ (Ne.symm hp2x), List.indexOf_cons_ne _ (Ne.symm hq2x)]
        exact Nat.succ_lt_succ hlt
    · intro p hp q hq
      obtain ⟨y, hy, rfl⟩ := List.mem_map.mp hp
      obtain ⟨hq1, _⟩ := mem_of_mem_pairs hq
      have hq1x : q.1 ≠ x := fun hq2x => hx (hq2x ▸ hq1)
      refine Or.inl ?_
      simp only
      rw [List.indexOf_cons_self, List.indexOf_cons_ne _ (Ne.symm hq1x)]
      exact Nat.succ_pos _

theorem pairs_nodup {α : Type} [DecidableEq α] {l : List α} (h : l.Nodup) :
    (pairs l).Nodup := by
  refine List.Pairwise.imp ?_ (pairs_sorted h)
  intro p q hpq heq
  subst heq
  rcases hpq with hlt | ⟨_, hlt⟩
  · exact Nat.lt_irrefl _ hlt
  · exact Nat.lt_irrefl _ hlt

/-- Claim C4: for every sequence of n distinct normalized drug identifiers,
PairGenerator produces exactly n*(n-1)/2 pairs, each unordered pair exactly
once (membership characterized by first-seen indices, no duplicate and no
swapped duplicate), in the deterministic order lexicographic by
(first-seen index of first element, first-seen index of second element);
fewer than 2 drugs give the empty pair sequence. -/
theorem pairGenerator_spec (l : List String) (h : l.Nodup) :
    (pairs l).length = l.length * (l.length - 1) / 2
    ∧ (∀ a b, (a, b) ∈ pairs l ↔ a ∈ l ∧ b ∈ l ∧ l.indexOf a < l.indexOf b)
    ∧ (∀ a b, (a, b) ∈ pairs l → (b, a) ∉ pairs l)
    ∧ (pairs l).Nodup
    ∧ List.Pairwise (idxLex l) (pairs l)
    ∧ (l.length < 2 → pairs l = []) := by
  refine ⟨?_, fun a b => mem_pairs h a b, ?_, pairs_nodup h, pairs_sorted h, ?_⟩
  · have hm := pairs_length_mul l
    generalize hK : l.length * (l.length - 1) = K at hm ⊢
    omega
  · intro a b hab hba
    obtain ⟨_, _, hlt1⟩ := (mem_pairs h a b).mp hab
    obtain ⟨_, _, hlt2⟩ := (mem_pairs h b a).mp hba
    omega
  · intro hlen
    match l, hlen with
    | [], _ => rfl
    | [x], _ => rfl

/-- Witness for claim C4 at the concrete input ["a", "b", "c"]. -/
theorem pairGenerator_spec_witness :
    (pairs ["a", "b", "c"]).length = 3 * (3 - 1) / 2 := by
  have h := pairGenerator_spec ["a", "b", "c"] (by decide)
  simpa using h.1

/-- Claim C5: pair severity lookup is order-independent: for all drug
identifiers a and b, getPairSeverity(a, b) equals getPairSeverity(b, a),
because the two identifiers are canonicalized by sorting before indexing. -/
theorem getPairSeverity_symm (ks : KnowledgeStore) (a b : String) :
    getPairSeverity ks a b = getPairSeverity ks b a :=
  getInteraction_comm ks a b

theorem charOfNat_toNat {n : Nat} (h : n < 55296) : (Char.ofNat n).toNat = n := by
  have hv : n.isValidChar := Or.inl h
  unfold Char.ofNat
  rw [dif_pos hv]
  unfold Char.ofNatAux Char.toNat
  simp [UInt32.toNat, BitVec.toNat_ofNatLt]

theorem lowerChar_idem (c : Char) : lowerChar (lowerChar c) = lowerChar c := by
  unfold lowerChar
  by_cases h : 65 ≤ c.toNat ∧ c.toNat ≤ 90
  · have hn : (Char.ofNat (c.toNat + 32)).toNat = c.toNat + 32 :=
      charOfNat_toNat (by omega)
    have hcond : ¬(65 ≤ (Char.ofNat (c.toNat + 32)).toNat
        ∧ (Char.ofNat (c.toNat + 32)).toNat ≤ 90) := by
      rw [hn]
      omega
    rw [if_pos h, if_neg hcond]
  · rw [if_neg h, if_neg h]

theorem isWsChar_iff {c : Char} :
    isWsChar c = true
      ↔ (c.toNat = 32 ∨ c.toNat = 9 ∨ c.toNat = 10 ∨ c.toNat = 13
          ∨ c.toNat = 11 ∨ c.toNat = 12) := by
  have h1 : (' ').toNat = 32 := rfl
  have h2 : ('\t').toNat = 9 := rfl
  have h3 : ('\n').toNat = 10 := rfl
  have h4 : ('\r').toNat = 13 := rfl
  have h5 : ('\x0b').toNat = 11 := rfl
  have h6 : ('\x0c').toNat = 12 := rfl
  simp only [isWsChar, Bool.or_eq_true, beq_iff_eq, char_eq_iff_toNat,
    h1, h2, h3, h4, h5, h6]
  tauto

theorem lowerChar_ws (c : Char) : isWsChar (lowerChar c) = isWsChar c := by
  unfold lowerChar
  by_cases h : 65 ≤ c.toNat ∧ c.toNat ≤ 90
  · rw [if_pos h]
    have hn : (Char.ofNat (c.toNat + 32)).toNat = c.toNat + 32 :=
      charOfNat_toNat (by omega)
    have h1 : isWsChar (Char.ofNat (c.toNat + 32)) = false := by
      cases hb : isWsChar (Char.ofNat (c.toNat + 32)) with
      | false => rfl
      | true => exact absurd (isWsChar_iff.mp hb) (by rw [hn]; omega)
    have h2 : isWsChar c = false := by
      cases hb : isWsChar c with
      | false => rfl
      | true => exact absurd (isWsChar_iff.mp hb) (by omega)
    rw [h1, h2]
  · rw [if_neg h]

theorem trimChars_dropWhile_self (l : List Char) :
    (trimChars l).dropWhile isWsChar = trimChars l := by
  rw [List.dropWhile_eq_self_iff]
  intro hl
  have hpre : trimChars l <+: l.dropWhile isWsChar :=
    List.rdropWhile_prefix _ _
  have hlen : 0 < (l.dropWhile isWsChar).length :=
    lt_of_lt_of_le hl hpre.length_le
  have hne : l.dropWhile isWsChar ≠ [] := List.length_pos.mp hlen
  have hhead := List.head_dropWhile_not isWsChar l hne
  rw [List.get_eq_getElem, hpre.getElem hl, List.getElem_zero hlen]
  simp [hhead]

theorem trimChars_idem (l : List Char) :
    trimChars (trimChars l) = trimChars l := by
  show ((trimChars l).dropWhile isWsChar).rdropWhile isWsChar = trimChars l
  rw [trimChars_dropWhile_self l]
  show ((l.dropWhile isWsChar).rdropWhile isWsChar).rdropWhile isWsChar = _
  exact List.rdropWhile_idempotent _ _

theorem trimChars_map_lower (l : List Char) :
    trimChars (l.map lowerChar) = (trimChars l).map lowerChar := by
  have hpf : (isWsChar ∘ lowerChar) = isWsChar := funext lowerChar_ws
  show ((l.map lowerChar).dropWhile isWsChar).rdropWhile isWsChar = _
  rw [List.dropWhile_map, hpf]
  show ((l.dropWhile isWsChar).map lowerChar).rdropWhile isWsChar = _
  unfold List.rdropWhile
  rw [← List.map_reverse, List.dropWhile_map, hpf, ← List.map_reverse]
  rfl

theorem isNormalized_normName (s : String) : IsNormalized (normName s) := by
  constructor
  · show String.mk (((trimChars s.data).map lowerChar).map lowerChar)
      = String.mk ((trimChars s.data).map lowerChar)
    rw [List.map_map]
    have hcomp : (lowerChar ∘ lowerChar) = lowerChar := funext lowerChar_idem
    rw [hcomp]
  · show String.mk (trimChars ((trimChars s.data).map lowerChar))
      = String.mk ((trimChars s.data).map lowerChar)
    rw [trimChars_map_lower, trimChars_idem]

/-- Claim C9: the frontend selection list always holds lowercase, trimmed,
pairwise-distinct drug names: addDrug appends the normalized name to the end
only when it is non-empty and not already present and leaves the list
unchanged otherwise; removeDrug removes exactly the occurrences of the given
name, keeping the other entries in order; clearAll resets to the empty
list. -/
theorem selection_invariant (s name : String) (sel : List String)
    (h : SelectionInv sel) :
    SelectionInv (addDrug s sel)
    ∧ (normName s ≠ "" → normName s ∉ sel
        → addDrug s sel = sel ++ [normName s])
    ∧ (normName s = "" → addDrug s sel = sel)
    ∧ (normName s ∈ sel → addDrug s sel = sel)
    ∧ SelectionInv (removeDrug name sel)
    ∧ (∀ x, x ∈ removeDrug name sel ↔ x ∈ sel ∧ x ≠ name)
    ∧ (removeDrug name sel).Sublist sel
    ∧ clearAll = ([] : List String) := by
  obtain ⟨hnd, hall⟩ := h
  refine ⟨?_, ?_, ?_, ?_, ⟨?_, ?_⟩, ?_, ?_, rfl⟩
  · unfold addDrug
    by_cases h1 : normName s = ""
    · rw [if_pos h1]
      exact ⟨hnd, hall⟩
    · rw [if_neg h1]
      by_cases h2 : normName s ∈ sel
      · rw [if_pos h2]
        exact ⟨hnd, hall⟩
      · rw [if_neg h2]
        constructor
        · rw [List.nodup_append]
          refine ⟨hnd, List.nodup_singleton _, ?_⟩
          intro x hx hx1
          rw [List.mem_singleton] at hx1
          exact h2 (hx1 ▸ hx)
        · intro x hx
          rcases List.mem_append.mp hx with hx1 | hx1
          · exact hall x hx1
          · rw [List.mem_singleton] at hx1
            exact hx1 ▸ isNormalized_normName s
  · intro h1 h2
    unfold addDrug
    rw [if_neg h1, if_neg h2]
  · intro h1
    unfold addDrug
    rw [if_pos h1]
  · intro h2
    unfold addDrug
    by_cases h1 : normName s = ""
    · rw [if_pos h1]
    · rw [if_neg h1, if_pos h2]
  · exact hnd.filter _
  · intro x hx
    exact hall x (List.mem_filter.mp hx).1
  · intro x
    rw [removeDrug, List.mem_filter, bne_iff_ne]
  · exact List.filter_sublist sel

/-- Witness for claim C9: the invariant holds for the singleton list
["aspirin"], and adding " Warfarin " appends its normalization. -/
theorem selection_invariant_witness :
    SelectionInv ["aspirin"]
    ∧ addDrug " Warfarin " ["aspirin"] = ["aspirin", "warfarin"] := by
  refine ⟨by decide, ?_⟩
  have h := selection_invariant " Warfarin " "x" ["aspirin"] (by decide)
  have h2 := h.2.1 (by decide) (by decide)
  rw [h2]
  decide

/-- Claim C10: for every recommendation string, the displayed icon class is
the one of the first matching emoji marker in the fixed priority order ban,
warning, bolt, lightbulb, check, elderly-person, defaulting to the info icon
when none occurs, and the recommendation text is rendered unmodified. -/
theorem recommendation_icon_spec (rec : String) :
    renderRecommendation rec = (firstMatchIcon rec, rec) := by
  unfold renderRecommendation recIcon firstMatchIcon iconPriority
  by_cases h1 : strIncludes rec "❌"
    <;> by_cases h2 : strIncludes rec "⚠️"
    <;> by_cases h3 : strIncludes rec "⚡"
    <;> by_cases h4 : strIncludes rec "💡"
    <;> by_cases h5 : strIncludes rec "✅"
    <;> by_cases h6 : strIncludes rec "👴"
    <;> simp [List.find?_cons, h1, h2, h3, h4, h5, h6]

theorem maxSev_cases (a b : Sev) : maxSev a b = a ∨ maxSev a b = b := by
  unfold maxSev
  split
  · exact Or.inr rfl
  · exact Or.inl rfl

theorem le_maxSev_left (a b : Sev) : sevRank a ≤ sevRank (maxSev a b) := by
  unfold maxSev
  split
  · exact Nat.le_of_lt (by assumption)
  · exact Nat.le_refl _

theorem le_maxSev_right (a b : Sev) : sevRank b ≤ sevRank (maxSev a b) := by
  unfold maxSev
  split
  · exact Nat.le_refl _
  · exact Nat.le_of_not_lt (by assumption)

theorem foldl_maxSev_spec (rs : List InteractionRecord) (init : Sev) :
    (rs.foldl (fun m x => maxSev m x.severity) init = init
      ∨ ∃ r, r ∈ rs ∧ rs.foldl (fun m x => maxSev m x.severity) init = r.severity)
    ∧ sevRank init ≤ sevRank (rs.foldl (fun m x => maxSev m x.severity) init)
    ∧ (∀ r, r ∈ rs → sevRank r.severity
        ≤ sevRank (rs.foldl (fun m x => maxSev m x.severity) init)) := by
  induction rs generalizing init with
  | nil =>
    refine ⟨Or.inl rfl, Nat.le_refl _, ?_⟩
    intro r hr
    simp at hr
  | cons x xs ih =>
    obtain ⟨hmem, hinit, hall⟩ := ih (maxSev init x.severity)
    rw [List.foldl_cons]
    refine ⟨?_, ?_, ?_⟩
    · rcases hmem with heq | ⟨r, hr, heq⟩
      · rcases maxSev_cases init x.severity with hc | hc
        · exact Or.inl (by rw [heq, hc])
        · exact Or.inr ⟨x, List.mem_cons_self x xs, by rw [heq, hc]⟩
      · exact Or.inr ⟨r, List.mem_cons_of_mem _ hr, heq⟩
    · exact Nat.le_trans (le_maxSev_left init x.severity) hinit
    · intro r hr
      rcases List.mem_cons.mp hr with rfl | hr2
      · exact Nat.le_trans (le_maxSev_right init r.severity) hinit
      · exact hall r hr2

/-- Claim C1: the overall risk equals the maximum severity among the matched
interaction records under the fixed total ordering
contraindicated > major > moderate > minor, and for the empty match set the
overall risk is the explicit named level "none". -/
theorem overallRisk_spec (l : List InteractionRecord) :
    (l = [] → overallRisk l = "none")
    ∧ (l ≠ [] → ∃ r, r ∈ l ∧ overallRisk l = sevName r.severity
        ∧ ∀ q, q ∈ l → sevRank q.severity ≤ sevRank r.severity) := by
  constructor
  · intro h
    subst h
    rfl
  · intro hne
    match l, hne with
    | r :: rs, _ =>
      obtain ⟨hmem, hinit, hall⟩ := foldl_maxSev_spec rs r.severity
      rcases hmem with heq | ⟨r2, hr2, heq⟩
      · refine ⟨r, List.mem_cons_self r rs, ?_, ?_⟩
        · show sevName (rs.foldl (fun m x => maxSev m x.severity) r.severity) = _
          rw [heq]
        · intro q hq
          rcases List.mem_cons.mp hq with rfl | hq2
          · exact Nat.le_refl _
          · have hle := hall q hq2
            rw [heq] at hle
            exact hle
      · refine ⟨r2, List.mem_cons_of_mem _ hr2, ?_, ?_⟩
        · show sevName (rs.foldl (fun m x => maxSev m x.severity) r.severity) = _
          rw [heq]
        · intro q hq
          rcases List.mem_cons.mp hq with rfl | hq2
          · rw [heq] at hinit
            exact hinit
          · have hle := hall q hq2
            rw [heq] at hle
            exact hle

/-- Witness for claim C1: empty match set gives "none"; a singleton major
record gives "major". -/
theorem overallRisk_spec_witness :
    overallRisk [] = "none"
    ∧ overallRisk [⟨"warfarin", "aspirin", Sev.major⟩] = "major" := by
  constructor
  · exact (overallRisk_spec []).1 rfl
  · obtain ⟨r, hr, heq, _⟩ :=
      (overallRisk_spec [⟨"warfarin", "aspirin", Sev.major⟩]).2 (by simp)
    have hr2 : r = ⟨"warfarin", "aspirin", Sev.major⟩ := by simpa using hr
    rw [heq, hr2]
    rfl

/-- Claim C3: unknown identifiers are exactly the input identifiers with no
Drug record, each reported once (no duplicates) in a normal result, and every
pair with an interaction record still contributes its matched record. -/
theorem resolver_unknowns_spec (ks : KnowledgeStore) (ids : List String) :
    (∀ u, u ∈ (resolve ks ids).unknowns ↔ u ∈ ids ∧ getDrug ks u = none)
    ∧ (resolve ks ids).unknowns.Nodup
    ∧ (∀ p, p ∈ pairs ids → ∀ r, getInteraction ks p.1 p.2 = some r
        → r ∈ (resolve ks ids).matched) := by
  refine ⟨?_, ?_, ?_⟩
  · intro u
    show u ∈ (ids.filter (fun d => (getDrug ks d).isNone)).dedup ↔ _
    rw [List.mem_dedup, List.mem_filter]
    constructor
    · rintro ⟨h1, h2⟩
      exact ⟨h1, Option.isNone_iff_eq_none.mp h2⟩
    · rintro ⟨h1, h2⟩
      refine ⟨h1, ?_⟩
      rw [h2]
      rfl
  · exact List.nodup_dedup _
  · intro p hp r hr
    show r ∈ (pairs ids).filterMap (fun p => getInteraction ks p.1 p.2)
    exact List.mem_filterMap.mpr ⟨p, hp, hr⟩

/-- Witness for claim C3: with the demo store, the input
["unknowndrugxyz", "aspirin", "warfarin"] reports the unknown identifier and
still returns the warfarin-aspirin interaction. -/
theorem resolver_unknowns_spec_witness :
    (⟨"warfarin", "aspirin", Sev.major⟩ : InteractionRecord)
      ∈ (resolve ksDemo ["unknowndrugxyz", "aspirin", "warfarin"]).matched
    ∧ "unknowndrugxyz"
      ∈ (resolve ksDemo ["unknowndrugxyz", "aspirin", "warfarin"]).unknowns := by
  have h := resolver_unknowns_spec ksDemo ["unknowndrugxyz", "aspirin", "warfarin"]
  constructor
  · exact h.2.2 ("aspirin", "warfarin") (by decide) _ (by decide)
  · exact (h.1 "unknowndrugxyz").mpr (by decide)

/-- Claim C2: when the input drug list has fewer than 2 entries after
normalization and deduplication, analyze fails with the explicit InvalidInput
error, never a silently defaulted success. -/
theorem analyze_invalidInput (ks : KnowledgeStore) (drugsIn : List String)
    (pf : Option PatientFactors)
    (h : ((drugsIn.map normName).dedup).length < 2) :
    analyze ks drugsIn pf
      = Except.error (EngineError.invalidInput minDrugsMsg) := by
  simp only [analyze]
  rw [if_pos h]

/-- Witness for claim C2: two spellings of aspirin deduplicate to one entry
and analyze rejects the request. -/
theorem analyze_invalidInput_witness :
    analyze ksDemo ["aspirin", " Aspirin "] none
      = Except.error (EngineError.invalidInput minDrugsMsg) :=
  analyze_invalidInput ksDemo ["aspirin", " Aspirin "] none (by decide)

theorem mem_insertBy {α : Type} (le : α → α → Bool) (x a : α) (l : List α) :
    a ∈ insertBy le x l ↔ a = x ∨ a ∈ l := by
  induction l with
  | nil => simp [insertBy]
  | cons y ys ih =>
    unfold insertBy
    split
    · simp [List.mem_cons]
    · simp only [List.mem_cons, ih]
      tauto

theorem mem_isort {α : Type} (le : α → α → Bool) (a : α) (l : List α) :
    a ∈ isort le l ↔ a ∈ l := by
  induction l with
  | nil => simp [isort]
  | cons x xs ih =>
    unfold isort
    rw [mem_insertBy, ih, List.mem_cons]

theorem pairwise_insertBy {α : Type} (le : α → α → Bool)
    (htot : ∀ a b, le a b = true ∨ le b a = true)
    (htrans : ∀ a b c, le a b = true → le b c = true → le a c = true)
    (x : α) (l : List α) (hl : List.Pairwise (fun a b => le a b = true) l) :
    List.Pairwise (fun a b => le a b = true) (insertBy le x l) := by
  induction l with
  | nil => simp [insertBy]
  | cons y ys ih =>
    unfold insertBy
    rcases List.pairwise_cons.mp hl with ⟨hy, hys⟩
    by_cases hxy : le x y = true
    · rw [if_pos hxy]
      refine List.pairwise_cons.mpr ⟨?_, hl⟩
      intro b hb
      rcases List.mem_cons.mp hb with rfl | hb2
      · exact hxy
      · exact htrans x y b hxy (hy b hb2)
    · rw [if_neg hxy]
      refine List.pairwise_cons.mpr ⟨?_, ih hys⟩
      intro b hb
      rcases (mem_insertBy le x b ys).mp hb with rfl | hb2
      · rcases htot b y with h1 | h1
        · exact absurd h1 hxy
        · exact h1
      · exact hy b hb2

theorem pairwise_isort {α : Type} (le : α → α → Bool)
    (htot : ∀ a b, le a b = true ∨ le b a = true)
    (htrans : ∀ a b c, le a b = true → le b c = true → le a c = true)
    (l : List α) :
    List.Pairwise (fun a b => le a b = true) (isort le l) := by
  induction l with
  | nil => simp [isort]
  | cons x xs ih => exact pairwise_insertBy le htot htrans x _ ih

/-- Claim C6: every alternative returned for a target drug has strictly fewer
interactions against the context than the target itself; when no candidate
qualifies the alternatives list is empty, a valid outcome. -/
theorem alternatives_safer (ks : KnowledgeStore) (d : String) (ctx : List String) :
    (∀ a, a ∈ alternativesFor ks d ctx
        → interactionCount ks a ctx < interactionCount ks d ctx)
    ∧ (∀ drug, getDrug ks d = some drug
        → (∀ c, c ∈ (ks.drugs.filter
              (fun x => x.dclass == drug.dclass && x.name != d)).map
                (fun x => x.name)
            → ¬ interactionCount ks c ctx < interactionCount ks d ctx)
        → alternativesFor ks d ctx = []) := by
  constructor
  · intro a ha
    unfold alternativesFor at ha
    cases hgd : getDrug ks d with
    | none =>
      rw [hgd] at ha
      simp at ha
    | some drug =>
      rw [hgd] at ha
      simp only [mem_isort, List.mem_filter] at ha
      exact of_decide_eq_true ha.2
  · intro drug hgd hnone
    unfold alternativesFor
    rw [hgd]
    have hf : ((ks.drugs.filter
          (fun x => x.dclass == drug.dclass && x.name != d)).map
            (fun x => x.name)).filter
          (fun c => decide (interactionCount ks c ctx < interactionCount ks d ctx))
        = [] := by
      rw [List.filter_eq_nil_iff]
      intro c hc
      simpa using hnone c hc
    simp only
    rw [hf]
    rfl

/-- Witness for claim C6: in the demo store, acetaminophen (0 interactions
with warfarin) is offered instead of ibuprofen (1 interaction). -/
theorem alternatives_safer_witness :
    "acetaminophen" ∈ alternativesFor ksDemo "ibuprofen" ["warfarin"]
    ∧ interactionCount ksDemo "acetaminophen" ["warfarin"]
        < interactionCount ksDemo "ibuprofen" ["warfarin"] := by
  have h := alternatives_safer ksDemo "ibuprofen" ["warfarin"]
  exact ⟨by decide, h.1 "acetaminophen" (by decide)⟩

/-- Claim C7: search returns at most the requested limit of results, never
more than the hard maximum of 50, every result is a stored drug matching the
query case-insensitively, results are ordered by name ascending, and the
client default limit is 10. -/
theorem storeSearch_spec (ks : KnowledgeStore) (q : String) (lim : Nat) :
    (storeSearch ks q lim).length ≤ lim
    ∧ (storeSearch ks q lim).length ≤ hardMaxResults
    ∧ (∀ d, d ∈ storeSearch ks q lim → d ∈ ks.drugs ∧ matchesQuery q d = true)
    ∧ List.Pairwise (fun a b : Drug => a.name ≤ b.name) (storeSearch ks q lim)
    ∧ storeSearch ks q defaultSearchLimit = storeSearch ks q 10 := by
  have htot : ∀ a b : Drug, drugLe a b = true ∨ drugLe b a = true := by
    intro a b
    rcases le_total a.name b.name with h | h
    · exact Or.inl (strLe_iff.mpr h)
    · exact Or.inr (strLe_iff.mpr h)
  have htrans : ∀ a b c : Drug,
      drugLe a b = true → drugLe b c = true → drugLe a c = true := by
    intro a b c h1 h2
    exact strLe_iff.mpr (le_trans (strLe_iff.mp h1) (strLe_iff.mp h2))
  refine ⟨?_, ?_, ?_, ?_, rfl⟩
  · exact le_trans (List.length_take_le _ _) (Nat.min_le_left _ _)
  · exact le_trans (List.length_take_le _ _) (Nat.min_le_right _ _)
  · intro d hd
    have hd2 := List.take_subset _ _ hd
    rw [mem_isort] at hd2
    have hm := List.mem_filter.mp hd2
    exact ⟨hm.1, hm.2⟩
  · have hp := pairwise_isort drugLe htot htrans (ks.drugs.filter (matchesQuery q))
    have hs := List.Pairwise.sublist (List.take_sublist (min lim hardMaxResults) _) hp
    exact hs.imp (fun h => strLe_iff.mp h)

/-- Witness for claim C7: searching the demo store for "wa" with limit 5
returns at most 5 results, and warfarin is a stored drug matching "wa". -/
theorem storeSearch_spec_witness :
    (storeSearch ksDemo "wa" 5).length ≤ 5
    ∧ ((⟨"warfarin", "anticoagulant"⟩ : Drug) ∈ ksDemo.drugs
        ∧ matchesQuery "wa" ⟨"warfarin", "anticoagulant"⟩ = true) := by
  have h := storeSearch_spec ksDemo "wa" 5
  exact ⟨h.1, h.2.2.1 ⟨"warfarin", "anticoagulant"⟩ (by decide)⟩

/-- Claim C8: a search query of fewer than 2 characters fails with the
explicit InvalidInput error naming the failed length check, rather than
returning results. -/
theorem searchDrugs_shortQuery (ks : KnowledgeStore) (q : String) (lim : Nat)
    (h : q.length < 2) :
    searchDrugs ks q lim
      = Except.error (EngineError.invalidInput queryTooShortMsg) := by
  unfold searchDrugs
  rw [if_pos h]

/-- Witness for claim C8: the one-character query "w" is rejected. -/
theorem searchDrugs_shortQuery_witness :
    searchDrugs ksDemo "w" 10
      = Except.error (EngineError.invalidInput queryTooShortMsg) :=
  searchDrugs_shortQuery ksDemo "w" 10 (by decide)

end DrugChecker
